import Mathlib

set_option maxRecDepth 10000

/-!
Verification development for the github-mcp-server repository.

Shallow embedding of the parts of the code the claims are about:
* `pkg/github/instructions.go` — the instruction synthesizer
  (`GenerateInstructions`, `getGeneralInstructions`, `getToolsetInstructions`);
* the toolset registration code of `toolsets.go` (`InitDynamicToolset`);
* the configuration UI extraction/sorting code (`getAvailableToolsets`,
  `initialConfigureModel`);
* `buildUpdateProjectItem` from the projects tool file;
* `filterPaths` from `pkg/github/repositories.go`;
* `getFirstSentence` from the configure/wizard commands.

Go strings are modelled by Lean `String` (indices are character indices;
all literals involved are ASCII, for which Go's byte indices coincide).
Go's `range` over a map visits the keys in an unspecified order; wherever
the code ranges over a map, the embedding takes the visiting order as an
explicit parameter constrained to be a permutation of the map's keys.
-/

namespace GhMcp

/-! ## Embeddings of the Go standard-library string helpers used by the code -/

/-- Go `strings.HasSuffix(s, suffix)`. -/
def goHasSuffix (s suffix : String) : Bool :=
  suffix.data.isSuffixOf s.data

/-- Go `strings.TrimSuffix(s, suffix)`: drops one trailing copy of
`suffix` when present, otherwise returns `s` unchanged. -/
def goTrimSuffix (s suffix : String) : String :=
  if goHasSuffix s suffix then ⟨s.data.take (s.data.length - suffix.data.length)⟩ else s

/-- Index of the first occurrence of `sub` in `l`
(`none` when there is none; `some 0` when `sub` is empty). -/
def indexOfSublist (l sub : List Char) : Option Nat :=
  if sub.isPrefixOf l then some 0
  else
    match l with
    | [] => none
    | _ :: rest => (indexOfSublist rest sub).map (· + 1)

/-- Go `strings.Index(s, sub)` (with `none` for Go's `-1`). -/
def goIndex (s sub : String) : Option Nat :=
  indexOfSublist s.data sub.data

/-- Go `s[:n]` (prefix of the first `n` characters). -/
def goSliceTo (s : String) (n : Nat) : String :=
  ⟨s.data.take n⟩

/-- Go `strings.Join(elems, sep)`. -/
def goJoin (sep : String) : List String → String
  | [] => ""
  | [a] => a
  | a :: b :: rest => a ++ sep ++ goJoin sep (b :: rest)

/-- Go `slices.Contains(s, v)` for string slices. -/
def goContains (s : List String) (v : String) : Bool :=
  s.contains v

/-! ## `pkg/github/instructions.go` -/

/-- The scenario table entry type (`scenarioDefinition` in the source). -/
structure scenarioDefinition where
  instruction : String
  requiredToolsets : List String
deriving DecidableEq

/-- The "Triaging Security Alerts" entry of the `scenarios` map literal. -/
def triagingScenario : scenarioDefinition :=
  { instruction := "Use list_dependabot_alerts, list_code_scanning_alerts, or list_secret_scanning_alerts with state='open' to find active security issues. Use get_*_alert for detailed information about specific alerts. For broader context, search list_global_security_advisories or get_global_security_advisory for known CVEs affecting your dependencies.",
    requiredToolsets := [] }

/-- The "Manage Workflow" entry of the `scenarios` map literal. -/
def manageWorkflowScenario : scenarioDefinition :=
  { instruction := "Call list_notifications regularly to see what needs attention. Use get_notification_details for full context on important items. Mark items as done with dismiss_notification or mark_all_notifications_read to keep your inbox organized. Use manage_notification_subscription to adjust notification preferences for threads or manage_repository_notification_subscription for entire repositories.",
    requiredToolsets := ["notifications"] }

/-- The "Investigating Bugs" entry of the `scenarios` map literal. -/
def investigatingBugsScenario : scenarioDefinition :=
  { instruction := "Use search_code to find relevant code patterns or function definitions across repositories. Use search_issues to check if similar bugs were reported before. Once you find relevant files, use get_file_contents to read them. Review get_commit and list_commits to understand recent changes that might have introduced the issue.",
    requiredToolsets := ["repos"] }

/-- The literal `scenarios` map of `getGeneralInstructions`, as an
association list from scenario name to its definition (the Go map literal
of instructions.go lines 69–82). -/
def scenarios : List (String × scenarioDefinition) :=
  [("Triaging Security Alerts", triagingScenario),
   ("Manage Workflow", manageWorkflowScenario),
   ("Investigating Bugs", investigatingBugsScenario)]

/-- The keys of the `scenarios` map. -/
def scenarioKeys : List String := scenarios.map Prod.fst

/-- The fixed first element of `parts` in `getGeneralInstructions`. -/
def scenariosIntro : String :=
  "When helping with development tasks, consider these common scenarios and appropriate tool choices:"

/-- The `fmt.Sprintf("%s: %s", scenarioName, scenario.instruction)` line
emitted for one scenario. -/
def scenarioLine (name : String) (sc : scenarioDefinition) : String :=
  name ++ ": " ++ sc.instruction

/-- The body of the `range scenarios` loop of `getGeneralInstructions`:
whether the scenario named by one visited key is emitted, and the line it
emits.  A scenario with an empty `requiredToolsets` list is always
emitted; otherwise it is emitted exactly when every required toolset is
in the enabled set. -/
def scenarioStep (enabledToolsets : List String) (name : String) : Option String :=
  match scenarios.lookup name with
  | none => none
  | some sc =>
    if sc.requiredToolsets.isEmpty then some (scenarioLine name sc)
    else if sc.requiredToolsets.all (goContains enabledToolsets) then some (scenarioLine name sc)
    else none

/-- The `parts` slice built by `getGeneralInstructions`.  `order` is the
sequence of keys in which Go's `range` visits the `scenarios` map — an
arbitrary permutation of `scenarioKeys` (Go randomizes map iteration
order). -/
def generalParts (order : List String) (enabledToolsets : List String) : List String :=
  scenariosIntro :: order.filterMap (scenarioStep enabledToolsets)

/-- `getGeneralInstructions` (instructions.go lines 63–108), with the map
iteration order passed explicitly. -/
def getGeneralInstructions (order : List String) (enabledToolsets : List String) : String :=
  goJoin " " (generalParts order enabledToolsets)

/-- The `case "pull_requests"` return value of `getToolsetInstructions`. -/
def pullRequestsBlock : String :=
  "## Pull Requests\n\nPR review workflow: Always use 'pull_request_review_write' with method 'create' to create a pending review, then 'add_comment_to_pending_review' to add comments, and finally 'pull_request_review_write' with method 'submit_pending' to submit the review for complex reviews with line-specific comments."

/-- The `case "issues"` return value of `getToolsetInstructions`. -/
def issuesBlock : String :=
  "## Issues\n\nCheck 'list_issue_types' first for organizations to use proper issue types. Use 'search_issues' before creating new issues to avoid duplicates. Always set 'state_reason' when closing issues."

/-- The `case "discussions"` return value of `getToolsetInstructions`
(the second line of the Go raw literal consists of two tab characters). -/
def discussionsBlock : String :=
  "## Discussions\n\t\t\nUse 'list_discussion_categories' to understand available categories before creating discussions. Filter by category for better organization."

/-- `getToolsetInstructions` (instructions.go lines 111–128). -/
def getToolsetInstructions (toolset : String) : String :=
  if toolset = "pull_requests" then pullRequestsBlock
  else if toolset = "issues" then issuesBlock
  else if toolset = "discussions" then discussionsBlock
  else ""

/-- The core instruction appended when the `context` toolset is enabled. -/
def coreInstruction : String :=
  "Always call 'get_me' first to understand current user permissions and context."

/-- The header prepended before the general (scenario) instructions. -/
def scenariosHeader : String :=
  "Here are common scenarios you may encounter followed by name and description of the steps to follow:"

/-- The `baseInstruction` literal of `GenerateInstructions`
(instructions.go lines 37–48). -/
def baseInstruction : String :=
  "The GitHub MCP Server provides tools to interact with GitHub platform.\n\nTool selection guidance:\n\t1. Use 'list_*' tools for broad, simple retrieval and pagination of all items of a type (e.g., all issues, all PRs, all branches) with basic filtering.\n\t2. Use 'search_*' tools for targeted queries with specific criteria, keywords, or complex filters (e.g., issues with certain text, PRs by author, code containing functions).\n\nContext management:\n\t1. Use pagination whenever possible with batches of 5-10 items.\n\t2. Use minimal_output parameter set to true if the full information is not needed to accomplish a task.\n\nTool usage guidance:\n\t1. For 'search_*' tools: Use separate 'sort' and 'order' parameters if available for sorting results - do not include 'sort:' syntax in query strings. Query strings should contain only search criteria (e.g., 'org:google language:python'), not sorting instructions."

/-- The body of the `range enabledToolsets` loop of
`GenerateInstructions`: the per-toolset block appended for one visited
toolset, skipped when the toolset has no block. -/
def toolsetBlockStep (toolset : String) : Option String :=
  let inst := getToolsetInstructions toolset
  if inst ≠ "" then some inst else none

/-- The `allInstructions` slice of `GenerateInstructions` just before the
final `strings.Join`: the base instruction followed by the accumulated
`instructions` slice (core instruction, scenario header + general
instructions, then one block per enabled toolset that has one). -/
def generateInstructionsList (order : List String) (enabledToolsets : List String) : List String :=
  baseInstruction ::
    ((if goContains enabledToolsets "context" then [coreInstruction] else []) ++
     (let generalInstructions := getGeneralInstructions order enabledToolsets
      if generalInstructions ≠ "" then [scenariosHeader, generalInstructions] else []) ++
     enabledToolsets.filterMap toolsetBlockStep)

/-- `GenerateInstructions` (instructions.go lines 11–54).
`disableInstructions` is the suppression signal
(`os.Getenv("DISABLE_INSTRUCTIONS") == "true"`); `order` is the order in
which Go's `range` visits the `scenarios` map inside
`getGeneralInstructions`. -/
def GenerateInstructions (disableInstructions : Bool) (order : List String)
    (enabledToolsets : List String) : String :=
  if disableInstructions then ""
  else goJoin " " (generateInstructionsList order enabledToolsets)

/-! ## Toolsets and the dynamic-discovery toolset (part_003) -/

/-- A registered tool: the name/description/read-only triple carried by
`toolsets.NewServerTool` that the claims are about. -/
structure ServerTool where
  name : String
  description : String
  readOnly : Bool
deriving DecidableEq

/-- Modelled from the spec: the `pkg/toolsets.Toolset` structure is not
under `src/` (only its uses are); per spec §3 a toolset has an id,
description, mutable `enabled` flag, and ordered read/write tool
sequences. -/
structure Toolset where
  Name : String
  Description : String
  Enabled : Bool
  readTools : List ServerTool
  writeTools : List ServerTool
deriving DecidableEq

/-- Modelled from the spec: `pkg/toolsets.NewToolset` is not under
`src/`; per spec §3 the `enabled` initial value is fixed at construction
and per the part_003 comment toolsets are created with "their default
state (disabled)". -/
def NewToolset (name description : String) : Toolset :=
  { Name := name, Description := description, Enabled := false,
    readTools := [], writeTools := [] }

/-- Modelled from the spec: `Toolset.AddReadTools` is not under `src/`;
per spec §4.1 it is append-only on the read-tool sequence. -/
def AddReadTools (t : Toolset) (tools : List ServerTool) : Toolset :=
  { t with readTools := t.readTools ++ tools }

/-- Modelled from the spec: `Toolset.GetAvailableTools()` is not under
`src/`; per spec §4.1 / §6 the configuration-UI consumption path returns
the read tools followed by the write tools (global read-only unset). -/
def GetAvailableTools (t : Toolset) : List ServerTool :=
  t.readTools ++ t.writeTools

/-- Modelled from the spec: the `ListAvailableToolsets` discovery tool
(dynamic.go is not under `src/`); spec §4.3 operation 1: list every
toolset with id, description, enabled flag and tool counts — a pure
read. -/
def ListAvailableToolsets : ServerTool :=
  { name := "list_available_toolsets",
    description := "List all available toolsets, their enabled state and tool counts",
    readOnly := true }

/-- Modelled from the spec: the `GetToolsetsTools` discovery tool
(dynamic.go is not under `src/`); spec §4.3 operation 2: list one
toolset's tools without requiring it to be enabled — a pure read. -/
def GetToolsetsTools : ServerTool :=
  { name := "get_toolset_tools",
    description := "List the tools of one toolset",
    readOnly := true }

/-- Modelled from the spec: the `EnableToolset` discovery tool
(dynamic.go is not under `src/`); spec §4.3 operation 3: enable a
toolset by id. -/
def EnableToolset : ServerTool :=
  { name := "enable_toolset",
    description := "Enable one toolset so its tools become available",
    readOnly := true }

/-- `InitDynamicToolset` (part_003 lines 286–298): builds the dynamic
discovery toolset with the three discovery operations as read tools and
sets `Enabled` to `true` before returning it. -/
def InitDynamicToolset : Toolset :=
  let dynamicToolSelection :=
    AddReadTools
      (NewToolset "dynamic"
        "Discover GitHub MCP tools that can help achieve tasks by enabling additional sets of tools, you can control the enablement of any toolset to access its tools when this toolset is enabled.")
      [ListAvailableToolsets, GetToolsetsTools, EnableToolset]
  { dynamicToolSelection with Enabled := true }

/-! ## The Output Size Governor -/

/-- Modelled from the spec: the truncation marker the governor appends
(the log-truncation path of `GetJobLogs` is not under `src/`); spec §4.4
requires "an explicit marker indicating truncation occurred and guidance
on how to request the remainder". -/
def truncationMarker : String :=
  "[log output truncated: only the most recent lines within the content window are shown; raise the content window size or use the failed-only filter to request the remainder]"

/-- Modelled from the spec: the Output Size Governor (the log-truncation
path of `GetJobLogs`, not under `src/`).  The raw output is a list of
whole records (log lines) and the budget a unit count (spec §4.4): a
payload within budget is returned unmodified; an over-budget payload is
replaced by its most recent `budget` records — whole records only —
followed by the truncation marker. -/
def applyOutputGovernor (budget : Nat) (raw : List String) : List String :=
  if raw.length ≤ budget then raw
  else raw.drop (raw.length - budget) ++ [truncationMarker]

/-! ## The configuration UI (part_000 / part_001) -/

/-- `toolInfo` (part_000/part_001); the configure variant's token-count
field is omitted (display only, computed by an external tokenizer). -/
structure toolInfo where
  name : String
  description : String
  toolsetName : String
  isReadOnly : Bool
deriving DecidableEq

/-- `toolsetInfo` (part_000/part_001). -/
structure toolsetInfo where
  name : String
  description : String
  tools : List toolInfo
deriving DecidableEq

/-- `sort.Slice(x, func(i, j) { x[i].name < x[j].name })` on tools:
modelled as a name-nondecreasing sort (Go's sort only guarantees the
result is a permutation ordered by the comparison key). -/
def sortToolsByName (l : List toolInfo) : List toolInfo :=
  l.mergeSort (fun a b => decide (a.name ≤ b.name))

/-- The same sort on `toolsetInfo` lists. -/
def sortToolsetInfosByName (l : List toolsetInfo) : List toolsetInfo :=
  l.mergeSort (fun a b => decide (a.name ≤ b.name))

/-- The fields of `configureModel` (part_000 lines 115–133) the claims
are about; terminal/tokenizer state is omitted. -/
structure configureModel where
  toolsets : List toolsetInfo
  allTools : List toolInfo
  filteredTools : List toolInfo
  width : Nat
  height : Nat
  showWelcome : Bool

/-- `initialConfigureModel` (part_000 lines 135–164): flattens all tools
of the given toolsets and sorts them alphabetically by name. -/
def initialConfigureModel (toolsets : List toolsetInfo) : configureModel :=
  let allTools := sortToolsByName (toolsets.flatMap (·.tools))
  { toolsets := toolsets, allTools := allTools, filteredTools := allTools,
    width := 80, height := 24, showWelcome := true }

/-- The `toolInfo` built for one tool of one toolset inside
`getAvailableToolsets`. -/
def makeToolInfo (toolsetName : String) (tool : ServerTool) : toolInfo :=
  { name := tool.name, description := tool.description,
    toolsetName := toolsetName, isReadOnly := tool.readOnly }

/-- `getAvailableToolsets` (part_000 lines 644–712, part_001 lines
37–91).  `iter` is the order in which Go's `range` visits the
`tsg.Toolsets` map (arbitrary); within each toolset the tools are sorted
by name, and the toolset list is sorted by name at the end. -/
def getAvailableToolsets (iter : List (String × Toolset)) : List toolsetInfo :=
  sortToolsetInfosByName <| iter.map (fun p =>
    { name := p.1, description := p.2.Description,
      tools := sortToolsByName ((GetAvailableTools p.2).map (makeToolInfo p.1)) })

/-! ## `buildUpdateProjectItem` (part_002 lines 982–1004) -/

/-- A JSON value as decoded into a Go `map[string]any`: JSON numbers are
finite decimals, modelled as rationals (Go decodes them as `float64`). -/
inductive JsonValue where
  | null
  | bool (b : Bool)
  | num (q : ℚ)
  | str (s : String)
  | arr (elems : List JsonValue)
  | obj (fields : List (String × JsonValue))

/-- Whether a JSON value is a number (a Go `float64` after decoding). -/
def JsonValue.isNum : JsonValue → Bool
  | .num _ => true
  | _ => false

/-- The `updateProjectItem` payload (part_002).  `ID` carries a Go
`int`, which is 64 bits wide on the platforms this server targets; under
this model its value always lies in `[goInt64Min, goInt64Max]` because
it is only ever produced by `goIntOfFloat`. -/
structure updateProjectItem where
  ID : Int
  Value : JsonValue

/-- The smallest value of Go's 64-bit `int` (`math.MinInt64`). -/
def goInt64Min : Int := -(2 ^ 63)

/-- The largest value of Go's 64-bit `int` (`math.MaxInt64`). -/
def goInt64Max : Int := 2 ^ 63 - 1

/-- The exact truncation toward zero of a JSON number. -/
def jsonNumTrunc (q : ℚ) : Int :=
  q.num.tdiv q.den

/-- Go `int(f)` applied to a JSON number on a 64-bit platform: the
truncation toward zero when that value is representable in `int`.  For
out-of-range values the Go specification makes the result
implementation-specific; the gc compiler on amd64/arm64 produces
`math.MinInt64`, which this model adopts — in every implementation the
result is some 64-bit value, never the (unrepresentable) truncation. -/
def goIntOfFloat (q : ℚ) : Int :=
  if goInt64Min ≤ jsonNumTrunc q ∧ jsonNumTrunc q ≤ goInt64Max then jsonNumTrunc q
  else goInt64Min

/-- `buildUpdateProjectItem` (part_002 lines 982–1004).  The input is
the `map[string]any` argument (`none` models a nil map), as an
association list. -/
def buildUpdateProjectItem (input : Option (List (String × JsonValue))) :
    Except String updateProjectItem :=
  match input with
  | none => Except.error "updated_field must be an object"
  | some m =>
    match m.lookup "id" with
    | none => Except.error "updated_field.id is required"
    | some (JsonValue.num q) =>
      match m.lookup "value" with
      | none => Except.error "updated_field.value is required"
      | some valueField => Except.ok { ID := goIntOfFloat q, Value := valueField }
    | some _ => Except.error "updated_field.id must be a number"

/-- Whether a `buildUpdateProjectItem` result is the error case. -/
def isErr (r : Except String updateProjectItem) : Bool :=
  match r with
  | .error _ => true
  | .ok _ => false

/-! ## `filterPaths` (pkg/github/repositories.go lines 1009–1038) -/

/-- One GitHub tree entry as used by `filterPaths`: its path
(`GetPath()`) and type (`GetType()`; `"tree"` marks a directory). -/
structure TreeEntry where
  path : String
  typ : String
deriving DecidableEq

/-- The loop of `filterPaths`, with the accumulated `matchedPaths`
passed explicitly; the loop breaks as soon as the accumulator length
equals `maxResults`. -/
def filterPathsLoop (dirOnly : Bool) (path : String) (maxResults : Int) :
    List TreeEntry → List String → List String
  | [], matched => matched
  | entry :: rest, matched =>
    if (matched.length : Int) = maxResults then matched
    else if dirOnly && !(entry.typ == "tree") then
      filterPathsLoop dirOnly path maxResults rest matched
    else if entry.path == "" then
      filterPathsLoop dirOnly path maxResults rest matched
    else if goHasSuffix entry.path path then
      filterPathsLoop dirOnly path maxResults rest
        (matched ++ [if entry.typ == "tree" then entry.path ++ "/" else entry.path])
    else
      filterPathsLoop dirOnly path maxResults rest matched

/-- `filterPaths` (repositories.go lines 1009–1038). -/
def filterPaths (entries : List TreeEntry) (path : String) (maxResults : Int) : List String :=
  if goHasSuffix path "/" then
    filterPathsLoop true (goTrimSuffix path "/") maxResults entries []
  else
    filterPathsLoop false path maxResults entries []

/-- Which entries `filterPaths` keeps, given the dir-only flag and the
trimmed suffix: directories only when dir-only, non-empty path, path
ending in the suffix. -/
def entryMatches (dirOnly : Bool) (path : String) (e : TreeEntry) : Bool :=
  !(dirOnly && !(e.typ == "tree")) && !(e.path == "") && goHasSuffix e.path path

/-- The string returned for one kept entry: its path, with a trailing
slash appended exactly for directories. -/
def entryResultPath (e : TreeEntry) : String :=
  if e.typ == "tree" then e.path ++ "/" else e.path

/-- The unlimited match list: every matching entry's result path, in
input order. -/
def filterPathsSpec (entries : List TreeEntry) (path : String) : List String :=
  let dirOnly := goHasSuffix path "/"
  let p := if dirOnly then goTrimSuffix path "/" else path
  (entries.filter (entryMatches dirOnly p)).map entryResultPath

/-! ## `getFirstSentence` (part_000 lines 714–726, part_001 lines 94–106) -/

/-- `getFirstSentence`: both the configure and the wizard command define
the identical function.  Note the source returns `description` unchanged
in both of the no-occurrence branches. -/
def getFirstSentence (description : String) : String :=
  match goIndex description ". " with
  | some idx => goSliceTo description (idx + 1)
  | none =>
    if goHasSuffix description "." then description
    else description

/-! ## Helper lemmas -/

theorem goJoin_cons (sep a : String) (l : List String) :
    ∃ t, goJoin sep (a :: l) = a ++ t := by
  cases l with
  | nil => exact ⟨"", by simp [goJoin]⟩
  | cons b rest =>
    exact ⟨sep ++ goJoin sep (b :: rest), by simp [goJoin, String.append_assoc]⟩

theorem string_ne_of_head {a b : String} (h : a.data.head? ≠ b.data.head?) : a ≠ b :=
  fun e => h (by rw [e])

theorem head_append {a : String} (t : String) {c : Char}
    (hd : a.data.head? = some c) : (a ++ t).data.head? = some c := by
  rw [String.data_append]
  cases ha : a.data with
  | nil => rw [ha] at hd; simp at hd
  | cons x xs => rw [ha] at hd; simp at hd; simp [hd]

/-! ## C5 — the dynamic discovery toolset -/

/-- C5: the toolset returned by `InitDynamicToolset` is already enabled
at construction and carries exactly the three discovery operations (list
available toolsets, get a toolset's tools, enable a toolset) as read
tools — and nothing as write tools. -/
theorem dynamic_toolset_enabled_with_discovery_tools :
    InitDynamicToolset.Enabled = true ∧
    InitDynamicToolset.readTools = [ListAvailableToolsets, GetToolsetsTools, EnableToolset] ∧
    InitDynamicToolset.writeTools = [] :=
  ⟨rfl, rfl, rfl⟩

/-! ## C6 — the Output Size Governor -/

/-- C6: a payload at or under budget is returned unmodified; a payload
one unit over budget is truncated to its most recent records followed by
the truncation marker, which is present in the result; and every record
of any result is a whole input record (or the marker) — no structural
unit is ever split. -/
theorem governor_boundary (budget : Nat) (raw : List String) (r : String) :
    (raw.length ≤ budget → applyOutputGovernor budget raw = raw) ∧
    (raw.length = budget + 1 →
      truncationMarker ∈ applyOutputGovernor budget raw ∧
      applyOutputGovernor budget raw = raw.drop 1 ++ [truncationMarker]) ∧
    (r ∈ applyOutputGovernor budget raw → r ∈ raw ∨ r = truncationMarker) := by
  refine ⟨fun h => by simp [applyOutputGovernor, h], fun h => ?_, fun h => ?_⟩
  · have hgt : ¬ raw.length ≤ budget := by omega
    constructor
    · simp [applyOutputGovernor, hgt]
    · simp [applyOutputGovernor, hgt, h]
  · by_cases hle : raw.length ≤ budget
    · simp [applyOutputGovernor, hle] at h
      exact Or.inl h
    · simp [applyOutputGovernor, hle] at h
      rcases h with h | h
      · exact Or.inl (List.mem_of_mem_drop h)
      · exact Or.inr h

theorem governor_boundary_witness :
    ((["a", "b", "c"] : List String).length ≤ 2 →
      applyOutputGovernor 2 ["a", "b", "c"] = ["a", "b", "c"]) ∧
    ((["a", "b", "c"] : List String).length = 2 + 1 →
      truncationMarker ∈ applyOutputGovernor 2 ["a", "b", "c"] ∧
      applyOutputGovernor 2 ["a", "b", "c"] =
        (["a", "b", "c"] : List String).drop 1 ++ [truncationMarker]) ∧
    ("b" ∈ applyOutputGovernor 2 ["a", "b", "c"] →
      "b" ∈ (["a", "b", "c"] : List String) ∨ "b" = truncationMarker) :=
  governor_boundary 2 ["a", "b", "c"] "b"

/-! ## C10 — `getFirstSentence` -/

theorem indexOfSublist_spec (sub : List Char) :
    ∀ (l : List Char) (i : Nat), indexOfSublist l sub = some i →
      sub.isPrefixOf (l.drop i) = true := by
  intro l
  induction l with
  | nil =>
    intro i h
    unfold indexOfSublist at h
    by_cases hp : sub.isPrefixOf [] = true
    · simp [hp] at h
      subst h
      simpa using hp
    · simp [hp] at h
  | cons c rest ih =>
    intro i h
    unfold indexOfSublist at h
    by_cases hp : sub.isPrefixOf (c :: rest) = true
    · simp [hp] at h
      subst h
      simpa using hp
    · simp [hp] at h
      rcases h with ⟨j, hj, hji⟩
      subst hji
      simpa using ih j hj

/-- C10: `getFirstSentence d` is a prefix of `d`; when `d` contains
`". "`, the result is `d` up to and including the period of the first
occurrence; otherwise the result is `d` unchanged. -/
theorem getFirstSentence_first_sentence (d : String) (idx : Nat) :
    List.IsPrefix (getFirstSentence d).data d.data ∧
    (goIndex d ". " = none → getFirstSentence d = d) ∧
    (goIndex d ". " = some idx →
      (getFirstSentence d).data = d.data.take (idx + 1) ∧
      d.data[idx]? = some '.') := by
  refine ⟨?_, ?_, ?_⟩
  · unfold getFirstSentence
    cases h : goIndex d ". " with
    | none =>
      by_cases hs : goHasSuffix d "." = true <;> simp [hs]
    | some i =>
      simpa [goSliceTo] using List.take_prefix (i + 1) d.data
  · intro h
    unfold getFirstSentence
    rw [h]
    by_cases hs : goHasSuffix d "." = true <;> simp [hs]
  · intro h
    constructor
    · unfold getFirstSentence
      rw [h]
      rfl
    · have hp := indexOfSublist_spec (". ".data) d.data idx h
      have hd : ∃ t, d.data.drop idx = '.' :: ' ' :: t := by
        cases hdrop : d.data.drop idx with
        | nil => rw [hdrop] at hp; simp [List.isPrefixOf] at hp
        | cons x xs =>
          rw [hdrop] at hp
          cases xs with
          | nil =>
            simp [List.isPrefixOf] at hp
          | cons y ys =>
            simp [List.isPrefixOf] at hp
            exact ⟨ys, by rw [← hp.1, ← hp.2]⟩
      rcases hd with ⟨t, ht⟩
      have : d.data[idx]? = (d.data.drop idx).head? := by
        rw [List.head?_drop]
      rw [this, ht]
      rfl

theorem getFirstSentence_witness :
    List.IsPrefix (getFirstSentence "Hello world. More text.").data ("Hello world. More text.").data ∧
    (goIndex "Hello world. More text." ". " = none →
      getFirstSentence "Hello world. More text." = "Hello world. More text.") ∧
    (goIndex "Hello world. More text." ". " = some 11 →
      (getFirstSentence "Hello world. More text.").data = ("Hello world. More text.").data.take (11 + 1) ∧
      ("Hello world. More text.").data[11]? = some '.') :=
  getFirstSentence_first_sentence "Hello world. More text." 11

/-! ## C4 — base guidance always present; suppression gives the empty string -/

/-- C4: with the suppression signal set `GenerateInstructions` returns
the empty string for every input; without it, for every enabled-toolset
list (the empty one included) and every map iteration order, the output
starts with the base guidance block. -/
theorem generateInstructions_base_and_suppression (order enabledToolsets : List String) :
    GenerateInstructions true order enabledToolsets = "" ∧
    ∃ t, GenerateInstructions false order enabledToolsets = baseInstruction ++ t := by
  refine ⟨rfl, ?_⟩
  unfold GenerateInstructions generateInstructionsList
  simpa using goJoin_cons " " baseInstruction _

/-! ## C1 — map-iteration nondeterminism of the scenario blocks -/

/-- C1 (refuting evidence): two orders in which Go's randomized `range`
may visit the `scenarios` map — both permutations of the map's keys —
give different `GenerateInstructions` outputs for the same enabled set
and the same (unset) suppression signal, so the output is not a function
of the enabled set alone. -/
theorem generateInstructions_depends_on_map_order :
    List.Perm ["Manage Workflow", "Triaging Security Alerts", "Investigating Bugs"] scenarioKeys ∧
    GenerateInstructions false scenarioKeys ["notifications"] ≠
      GenerateInstructions false
        ["Manage Workflow", "Triaging Security Alerts", "Investigating Bugs"]
        ["notifications"] := by
  constructor
  · decide
  · decide

/-! ## C8 — `buildUpdateProjectItem` -/

/-- C8 (refuting the claim as stated): at the reachable input
`{"id": 2^64, "value": null}` — a valid JSON number whose truncation
does not fit in Go's 64-bit `int` — the code returns the
implementation's out-of-range conversion result, which is not the
integer truncation of the given id (no 64-bit value could be). -/
theorem buildUpdateProjectItem_overflow_counterexample :
    buildUpdateProjectItem
        (some [("id", JsonValue.num 18446744073709551616), ("value", JsonValue.null)]) =
      Except.ok { ID := goInt64Min, Value := JsonValue.null } ∧
    goInt64Min ≠ jsonNumTrunc 18446744073709551616 := by
  have htr : jsonNumTrunc (18446744073709551616 : ℚ) = 18446744073709551616 := by
    norm_num [jsonNumTrunc]
  have hout : goIntOfFloat (18446744073709551616 : ℚ) = goInt64Min := by
    rw [goIntOfFloat, if_neg]
    rw [htr]
    norm_num [goInt64Max]
  constructor
  · have hstep : buildUpdateProjectItem
        (some [("id", JsonValue.num (18446744073709551616 : ℚ)), ("value", JsonValue.null)]) =
        Except.ok { ID := goIntOfFloat (18446744073709551616 : ℚ), Value := JsonValue.null } := rfl
    rw [hstep, hout]
  · rw [htr]
    norm_num [goInt64Min]

/-- C8 (amended): `buildUpdateProjectItem` errors exactly when the input
map is nil, lacks `"id"`, has a non-number `"id"`, or lacks `"value"`;
in every other case it returns (without panicking) a payload whose Value
is exactly the given value (a null value included) and whose ID is Go's
64-bit `int` conversion of the id — always a 64-bit value, and equal to
the integer truncation of the id whenever that truncation is
representable in `int`. -/
theorem buildUpdateProjectItem_cases (input : Option (List (String × JsonValue)))
    (m : List (String × JsonValue)) (q : ℚ) (v : JsonValue)
    (him : input = some m) :
    isErr (buildUpdateProjectItem none) = true ∧
    (isErr (buildUpdateProjectItem input) = true ↔
      (m.lookup "id" = none ∨
       (m.lookup "id").map JsonValue.isNum = some false ∨
       m.lookup "value" = none)) ∧
    (m.lookup "id" = some (JsonValue.num q) → m.lookup "value" = some v →
      buildUpdateProjectItem input = Except.ok { ID := goIntOfFloat q, Value := v } ∧
      goInt64Min ≤ goIntOfFloat q ∧ goIntOfFloat q ≤ goInt64Max ∧
      (goInt64Min ≤ jsonNumTrunc q → jsonNumTrunc q ≤ goInt64Max →
        goIntOfFloat q = jsonNumTrunc q)) := by
  subst him
  refine ⟨rfl, ?_, ?_⟩
  · cases hid : m.lookup "id" with
    | none => simp [buildUpdateProjectItem, hid, isErr]
    | some w =>
      cases w with
      | num q' =>
        cases hv : m.lookup "value" with
        | none => simp [buildUpdateProjectItem, hid, hv, isErr, JsonValue.isNum]
        | some u => simp [buildUpdateProjectItem, hid, hv, isErr, JsonValue.isNum]
      | null => simp [buildUpdateProjectItem, hid, isErr, JsonValue.isNum]
      | bool b => simp [buildUpdateProjectItem, hid, isErr, JsonValue.isNum]
      | str s => simp [buildUpdateProjectItem, hid, isErr, JsonValue.isNum]
      | arr elems => simp [buildUpdateProjectItem, hid, isErr, JsonValue.isNum]
      | obj fields => simp [buildUpdateProjectItem, hid, isErr, JsonValue.isNum]
  · intro hid hv
    refine ⟨by simp [buildUpdateProjectItem, hid, hv], ?_, ?_, ?_⟩
    · rw [goIntOfFloat]
      by_cases hr : goInt64Min ≤ jsonNumTrunc q ∧ jsonNumTrunc q ≤ goInt64Max
      · rw [if_pos hr]
        exact hr.1
      · rw [if_neg hr]
    · rw [goIntOfFloat]
      by_cases hr : goInt64Min ≤ jsonNumTrunc q ∧ jsonNumTrunc q ≤ goInt64Max
      · rw [if_pos hr]
        exact hr.2
      · rw [if_neg hr]
        norm_num [goInt64Min, goInt64Max]
    · intro h1 h2
      rw [goIntOfFloat, if_pos ⟨h1, h2⟩]

theorem buildUpdateProjectItem_witness :
    buildUpdateProjectItem
        (some [("id", JsonValue.num (-(5 / 2 : ℚ))), ("value", JsonValue.null)]) =
      Except.ok { ID := -2, Value := JsonValue.null } := by
  have h := (buildUpdateProjectItem_cases
      (some [("id", JsonValue.num (-(5 / 2 : ℚ))), ("value", JsonValue.null)])
      [("id", JsonValue.num (-(5 / 2 : ℚ))), ("value", JsonValue.null)]
      (-(5 / 2 : ℚ)) JsonValue.null rfl).2.2 rfl rfl
  have htr : goIntOfFloat (-(5 / 2 : ℚ)) = -2 := by
    rw [h.2.2.2 (by norm_num [jsonNumTrunc, goInt64Min]; decide)
      (by norm_num [jsonNumTrunc, goInt64Max]; decide)]
    norm_num [jsonNumTrunc]
    decide
  rw [h.1, htr]

/-! ## Per-toolset block lemmas (for the claims about `GenerateInstructions`) -/

theorem getToolsetInstructions_three_cases (ts : String)
    (h : getToolsetInstructions ts ≠ "") :
    (ts = "pull_requests" ∧ getToolsetInstructions ts = pullRequestsBlock) ∨
    (ts = "issues" ∧ getToolsetInstructions ts = issuesBlock) ∨
    (ts = "discussions" ∧ getToolsetInstructions ts = discussionsBlock) := by
  by_cases h1 : ts = "pull_requests"
  · exact Or.inl ⟨h1, by simp [getToolsetInstructions, h1]⟩
  · by_cases h2 : ts = "issues"
    · exact Or.inr (Or.inl ⟨h2, by simp [getToolsetInstructions, h1, h2]⟩)
    · by_cases h3 : ts = "discussions"
      · exact Or.inr (Or.inr ⟨h3, by simp [getToolsetInstructions, h1, h2, h3]⟩)
      · exact absurd (by simp [getToolsetInstructions, h1, h2, h3]) h

theorem getToolsetInstructions_head (ts : String)
    (h : getToolsetInstructions ts ≠ "") :
    (getToolsetInstructions ts).data.head? = some '#' := by
  rcases getToolsetInstructions_three_cases ts h with ⟨_, he⟩ | ⟨_, he⟩ | ⟨_, he⟩ <;>
    rw [he] <;> rfl

theorem getToolsetInstructions_injOn {a b : String}
    (ha : getToolsetInstructions a ≠ "")
    (hab : getToolsetInstructions a = getToolsetInstructions b) : a = b := by
  have hb : getToolsetInstructions b ≠ "" := by rw [← hab]; exact ha
  rcases getToolsetInstructions_three_cases a ha with ⟨ea, va⟩ | ⟨ea, va⟩ | ⟨ea, va⟩ <;>
    rcases getToolsetInstructions_three_cases b hb with ⟨eb, vb⟩ | ⟨eb, vb⟩ | ⟨eb, vb⟩ <;>
      subst ea <;> subst eb <;> first
        | rfl
        | (rw [va, vb] at hab; exact absurd hab (by decide))

theorem count_toolsetBlocks (ts : String) (h : getToolsetInstructions ts ≠ "")
    (enabled : List String) :
    (enabled.filterMap toolsetBlockStep).count (getToolsetInstructions ts) =
      enabled.count ts := by
  induction enabled with
  | nil => rfl
  | cons x xs ih =>
    by_cases hx : getToolsetInstructions x = ""
    · have hstep : toolsetBlockStep x = none := by simp [toolsetBlockStep, hx]
      have hxts : (x == ts) = false := beq_eq_false_iff_ne.mpr fun he => h (he ▸ hx)
      simp [List.filterMap_cons, hstep, List.count_cons, hxts, ih]
    · have hstep : toolsetBlockStep x = some (getToolsetInstructions x) := by
        simp [toolsetBlockStep, hx]
      rw [List.filterMap_cons, hstep, List.count_cons, List.count_cons, ih]
      congr 1
      by_cases hxe : x = ts
      · subst hxe
        simp
      · have h1 : (x == ts) = false := beq_eq_false_iff_ne.mpr hxe
        have h2 : (getToolsetInstructions x == getToolsetInstructions ts) = false := by
          refine beq_eq_false_iff_ne.mpr fun he => hxe ?_
          exact getToolsetInstructions_injOn hx he
        rw [h1, h2]

theorem getGeneralInstructions_starts_with_intro (order enabled : List String) :
    ∃ t, getGeneralInstructions order enabled = scenariosIntro ++ t := by
  unfold getGeneralInstructions generalParts
  exact goJoin_cons " " scenariosIntro _

theorem block_ne_general (ts : String) (h : getToolsetInstructions ts ≠ "")
    (order enabled : List String) :
    getToolsetInstructions ts ≠ getGeneralInstructions order enabled := by
  rcases getGeneralInstructions_starts_with_intro order enabled with ⟨t, ht⟩
  rw [ht]
  refine string_ne_of_head ?_
  have hW : scenariosIntro.data.head? = some 'W' := rfl
  rw [getToolsetInstructions_head ts h, head_append t hW]
  decide

theorem block_ne_fixed (ts : String) (h : getToolsetInstructions ts ≠ "") :
    getToolsetInstructions ts ≠ baseInstruction ∧
    getToolsetInstructions ts ≠ coreInstruction ∧
    getToolsetInstructions ts ≠ scenariosHeader := by
  rcases getToolsetInstructions_three_cases ts h with ⟨_, he⟩ | ⟨_, he⟩ | ⟨_, he⟩ <;>
    rw [he] <;> exact ⟨by decide, by decide, by decide⟩

/-! ## C2 — per-toolset supplemental blocks -/

/-- C2 (refuting the claim as stated): for the enabled-toolset list
`["issues", "issues"]` the issues toolset contributes its supplemental
block twice, not at most once. -/
theorem toolset_block_duplicated_counterexample :
    ¬ ((generateInstructionsList scenarioKeys ["issues", "issues"]).count
        (getToolsetInstructions "issues") ≤ 1) := by
  decide

/-- C2 (amended): for every duplicate-free enabled-toolset list (the
suppression signal unset), each toolset that has a supplemental block
contributes it at most once, a block appears in the output only when its
toolset is present in the input, and the empty input yields no
per-toolset block at all. -/
theorem toolset_blocks_at_most_once (order enabled : List String) (ts : String)
    (hnd : enabled.Nodup) (hb : getToolsetInstructions ts ≠ "") :
    (generateInstructionsList order enabled).count (getToolsetInstructions ts) ≤ 1 ∧
    (getToolsetInstructions ts ∈ generateInstructionsList order enabled → ts ∈ enabled) ∧
    (enabled = [] → getToolsetInstructions ts ∉ generateInstructionsList order enabled) := by
  obtain ⟨hbase, hcore, hhdr⟩ := block_ne_fixed ts hb
  have hgen := block_ne_general ts hb order enabled
  have hmem_imp : getToolsetInstructions ts ∈ generateInstructionsList order enabled →
      ts ∈ enabled := by
    intro hmem
    simp only [generateInstructionsList, List.mem_cons, List.mem_append] at hmem
    rcases hmem with hc | (hc | hc) | hc
    · exact absurd hc hbase
    · by_cases hctx : goContains enabled "context" = true
      · simp [hctx] at hc
        exact absurd hc hcore
      · simp [hctx] at hc
    · by_cases hg : getGeneralInstructions order enabled ≠ ""
      · simp [hg] at hc
        rcases hc with hc | hc
        · exact absurd hc hhdr
        · exact absurd hc hgen
      · simp [hg] at hc
    · rcases List.mem_filterMap.mp hc with ⟨x, hx, hxB⟩
      by_cases hxe : getToolsetInstructions x = ""
      · simp [toolsetBlockStep, hxe] at hxB
      · simp [toolsetBlockStep, hxe] at hxB
        have : x = ts := getToolsetInstructions_injOn hxe hxB
        exact this ▸ hx
  refine ⟨?_, hmem_imp, ?_⟩
  · have hcnt : (generateInstructionsList order enabled).count (getToolsetInstructions ts) =
        (enabled.filterMap toolsetBlockStep).count (getToolsetInstructions ts) := by
      simp only [generateInstructionsList, List.count_cons, List.count_append]
      have h1 : (baseInstruction == getToolsetInstructions ts) = false :=
        beq_eq_false_iff_ne.mpr fun he => hbase he.symm
      rw [h1]
      have h2 : ((if goContains enabled "context" then [coreInstruction] else []).count
          (getToolsetInstructions ts)) = 0 := by
        by_cases hctx : goContains enabled "context" = true <;>
          simp [hctx, List.count_cons, beq_eq_false_iff_ne.mpr fun he => hcore he.symm]
      have h3 : ((if getGeneralInstructions order enabled ≠ "" then
          [scenariosHeader, getGeneralInstructions order enabled] else []).count
          (getToolsetInstructions ts)) = 0 := by
        by_cases hg : getGeneralInstructions order enabled ≠ "" <;>
          simp [hg, List.count_cons, beq_eq_false_iff_ne.mpr fun he => hhdr he.symm,
            beq_eq_false_iff_ne.mpr fun he => hgen he.symm]
      rw [h2, h3]
      simp
    rw [hcnt, count_toolsetBlocks ts hb enabled]
    exact List.nodup_iff_count_le_one.mp hnd ts
  · intro he hmem
    have := hmem_imp hmem
    rw [he] at this
    exact absurd this (List.not_mem_nil ts)

theorem toolset_blocks_at_most_once_witness :
    (generateInstructionsList scenarioKeys ["issues"]).count
        (getToolsetInstructions "issues") ≤ 1 :=
  (toolset_blocks_at_most_once scenarioKeys ["issues"] "issues"
    (by decide) (by decide)).1

/-! ## C3 — cross-cutting scenario rules -/

theorem scenarioStep_at_triaging (enabled : List String) :
    scenarioStep enabled "Triaging Security Alerts" =
      some (scenarioLine "Triaging Security Alerts" triagingScenario) := rfl

theorem scenarioStep_at_manageWorkflow (enabled : List String) :
    scenarioStep enabled "Manage Workflow" =
      if manageWorkflowScenario.requiredToolsets.all (goContains enabled)
      then some (scenarioLine "Manage Workflow" manageWorkflowScenario)
      else none := rfl

theorem scenarioStep_at_investigatingBugs (enabled : List String) :
    scenarioStep enabled "Investigating Bugs" =
      if investigatingBugsScenario.requiredToolsets.all (goContains enabled)
      then some (scenarioLine "Investigating Bugs" investigatingBugsScenario)
      else none := rfl

/-- C3: for every enabled set, every map iteration order (a permutation
of the scenario keys) and every rule of the scenario table, the rule's
instruction line is emitted into the general-instruction parts if and
only if every toolset id the rule requires is present in the enabled
set; each rule is decided independently of the others. -/
theorem scenarioBlock_iff (order enabled : List String) (name : String)
    (sc : scenarioDefinition)
    (hord : order.Perm scenarioKeys) (hmem : (name, sc) ∈ scenarios) :
    scenarioLine name sc ∈ generalParts order enabled ↔
      sc.requiredToolsets.all (goContains enabled) = true := by
  have hka : ∀ k, k ∈ order → k ∈ scenarioKeys := fun k hk => (hord.mem_iff).mp hk
  have hmain : ∀ L : String, L ∈ generalParts order enabled ↔
      (L = scenariosIntro ∨ ∃ k ∈ order, scenarioStep enabled k = some L) := by
    intro L
    simp [generalParts, List.mem_filterMap, eq_comm]
  simp only [scenarios, List.mem_cons, List.not_mem_nil, or_false,
    Prod.mk.injEq] at hmem
  rcases hmem with ⟨rfl, rfl⟩ | ⟨rfl, rfl⟩ | ⟨rfl, rfl⟩
  · rw [hmain]
    constructor
    · intro _
      rfl
    · intro _
      refine Or.inr ⟨"Triaging Security Alerts", (hord.mem_iff).mpr (by decide), ?_⟩
      rw [scenarioStep_at_triaging]
  · rw [hmain]
    constructor
    · rintro (he | ⟨k, hk, hstep⟩)
      · exact absurd he (by decide)
      · have hks := hka k hk
        simp [scenarioKeys, scenarios] at hks
        rcases hks with rfl | rfl | rfl
        · rw [scenarioStep_at_triaging] at hstep
          exact absurd (Option.some.inj hstep) (by decide)
        · rw [scenarioStep_at_manageWorkflow] at hstep
          by_cases hc : manageWorkflowScenario.requiredToolsets.all (goContains enabled) = true
          · exact hc
          · simp [hc] at hstep
        · rw [scenarioStep_at_investigatingBugs] at hstep
          by_cases hc : investigatingBugsScenario.requiredToolsets.all (goContains enabled) = true
          · rw [if_pos hc] at hstep
            exact absurd (Option.some.inj hstep) (by decide)
          · simp [hc] at hstep
    · intro hall
      refine Or.inr ⟨"Manage Workflow", (hord.mem_iff).mpr (by decide), ?_⟩
      rw [scenarioStep_at_manageWorkflow, if_pos hall]
  · rw [hmain]
    constructor
    · rintro (he | ⟨k, hk, hstep⟩)
      · exact absurd he (by decide)
      · have hks := hka k hk
        simp [scenarioKeys, scenarios] at hks
        rcases hks with rfl | rfl | rfl
        · rw [scenarioStep_at_triaging] at hstep
          exact absurd (Option.some.inj hstep) (by decide)
        · rw [scenarioStep_at_manageWorkflow] at hstep
          by_cases hc : manageWorkflowScenario.requiredToolsets.all (goContains enabled) = true
          · rw [if_pos hc] at hstep
            exact absurd (Option.some.inj hstep) (by decide)
          · simp [hc] at hstep
        · rw [scenarioStep_at_investigatingBugs] at hstep
          by_cases hc : investigatingBugsScenario.requiredToolsets.all (goContains enabled) = true
          · exact hc
          · simp [hc] at hstep
    · intro hall
      refine Or.inr ⟨"Investigating Bugs", (hord.mem_iff).mpr (by decide), ?_⟩
      rw [scenarioStep_at_investigatingBugs, if_pos hall]

theorem scenarioBlock_iff_witness :
    scenarioLine "Manage Workflow" manageWorkflowScenario ∈
      generalParts scenarioKeys ["notifications"] :=
  (scenarioBlock_iff scenarioKeys ["notifications"] "Manage Workflow"
    manageWorkflowScenario (List.Perm.refl _) (by decide)).mpr (by decide)

/-! ## C7 — configuration UI sorting -/

theorem sortToolsByName_sorted (l : List toolInfo) :
    List.Sorted (fun a b : toolInfo => a.name ≤ b.name) (sortToolsByName l) := by
  have h := @List.sorted_mergeSort toolInfo
    (fun a b : toolInfo => decide (a.name ≤ b.name))
    (fun a b c hab hbc =>
      decide_eq_true (le_trans (of_decide_eq_true hab) (of_decide_eq_true hbc)))
    (fun a b => by
      rcases le_total a.name b.name with h | h <;> simp [h])
    l
  exact h.imp fun hab => of_decide_eq_true hab

theorem sortToolsetInfosByName_sorted (l : List toolsetInfo) :
    List.Sorted (fun a b : toolsetInfo => a.name ≤ b.name) (sortToolsetInfosByName l) := by
  have h := @List.sorted_mergeSort toolsetInfo
    (fun a b : toolsetInfo => decide (a.name ≤ b.name))
    (fun a b c hab hbc =>
      decide_eq_true (le_trans (of_decide_eq_true hab) (of_decide_eq_true hbc)))
    (fun a b => by
      rcases le_total a.name b.name with h | h <;> simp [h])
    l
  exact h.imp fun hab => of_decide_eq_true hab

/-- C7: the configuration UI sorts explicitly — the toolset list built
by `getAvailableToolsets` is sorted ascending by toolset name, the tool
list inside each of its toolsets is sorted ascending by tool name, and
the flattened all-tools list of `initialConfigureModel` is sorted
ascending by tool name. -/
theorem configuration_ui_sorted (iter : List (String × Toolset))
    (inputToolsets : List toolsetInfo) (ts : toolsetInfo) :
    List.Sorted (fun a b : toolsetInfo => a.name ≤ b.name) (getAvailableToolsets iter) ∧
    (ts ∈ getAvailableToolsets iter →
      List.Sorted (fun a b : toolInfo => a.name ≤ b.name) ts.tools) ∧
    List.Sorted (fun a b : toolInfo => a.name ≤ b.name)
      (initialConfigureModel inputToolsets).allTools := by
  refine ⟨sortToolsetInfosByName_sorted _, fun hts => ?_, sortToolsByName_sorted _⟩
  have hmem : ts ∈ iter.map (fun p =>
      ({ name := p.1, description := p.2.Description,
         tools := sortToolsByName ((GetAvailableTools p.2).map (makeToolInfo p.1)) } :
        toolsetInfo)) := by
    have := List.mem_mergeSort.mp hts
    simpa [getAvailableToolsets, sortToolsetInfosByName] using this
  rcases List.mem_map.mp hmem with ⟨p, _, hp⟩
  rw [← hp]
  exact sortToolsByName_sorted _

theorem configuration_ui_sorted_witness :
    List.Sorted (fun a b : toolsetInfo => a.name ≤ b.name)
      (getAvailableToolsets [("repos", NewToolset "repos" "Repos"),
                             ("actions", NewToolset "actions" "Actions")]) ∧
    List.Sorted (fun a b : toolInfo => a.name ≤ b.name)
      ({ name := "repos", description := "Repos", tools := [] } : toolsetInfo).tools ∧
    List.Sorted (fun a b : toolInfo => a.name ≤ b.name)
      (initialConfigureModel []).allTools := by
  have h := configuration_ui_sorted
    [("repos", NewToolset "repos" "Repos"), ("actions", NewToolset "actions" "Actions")]
    [] { name := "repos", description := "Repos", tools := [] }
  refine ⟨h.1, h.2.1 ?_, h.2.2⟩
  simp [getAvailableToolsets, sortToolsetInfosByName, sortToolsByName,
    GetAvailableTools, NewToolset, List.mem_mergeSort, makeToolInfo]

/-! ## C9 — `filterPaths` -/

theorem filterPathsLoop_neg_limit (d : Bool) (p : String) (m : Int) (hm : m < 0) :
    ∀ (entries : List TreeEntry) (acc : List String),
      filterPathsLoop d p m entries acc =
        acc ++ (entries.filter (entryMatches d p)).map entryResultPath := by
  intro entries
  induction entries with
  | nil =>
    intro acc
    simp [filterPathsLoop]
  | cons e rest ih =>
    intro acc
    have hne : ¬ ((acc.length : Int) = m) := by
      have h0 : (0 : Int) ≤ (acc.length : Int) := Int.ofNat_nonneg _
      omega
    simp only [filterPathsLoop]
    rw [if_neg hne]
    cases hb1 : (d && !(e.typ == "tree")) with
    | true =>
      rw [if_pos rfl, ih acc]
      simp [List.filter_cons, entryMatches, hb1]
    | false =>
      rw [if_neg (by simp)]
      cases hb2 : (e.path == "") with
      | true =>
        rw [if_pos rfl, ih acc]
        simp [List.filter_cons, entryMatches, hb2]
      | false =>
        rw [if_neg (by simp)]
        cases hb3 : goHasSuffix e.path p with
        | true =>
          rw [if_pos rfl, ih (acc ++ [if e.typ == "tree" then e.path ++ "/" else e.path])]
          simp [List.filter_cons, entryMatches, entryResultPath, hb1, hb2, hb3,
            List.append_assoc]
        | false =>
          rw [if_neg (by simp), ih acc]
          simp [List.filter_cons, entryMatches, hb1, hb2, hb3]

theorem filterPathsLoop_nat_limit (d : Bool) (p : String) (m : Nat) :
    ∀ (entries : List TreeEntry) (acc : List String), acc.length ≤ m →
      filterPathsLoop d p (m : Int) entries acc =
        acc ++ ((entries.filter (entryMatches d p)).map entryResultPath).take
          (m - acc.length) := by
  intro entries
  induction entries with
  | nil =>
    intro acc _
    simp [filterPathsLoop]
  | cons e rest ih =>
    intro acc hacc
    by_cases heq : acc.length = m
    · have : ((acc.length : Int) = (m : Int)) := by exact_mod_cast heq
      simp only [filterPathsLoop]
      rw [if_pos this, heq]
      simp
    · have hlt : acc.length < m := lt_of_le_of_ne hacc heq
      have hne : ¬ ((acc.length : Int) = (m : Int)) := by exact_mod_cast heq
      simp only [filterPathsLoop]
      rw [if_neg hne]
      cases hb1 : (d && !(e.typ == "tree")) with
      | true =>
        rw [if_pos rfl, ih acc hacc]
        simp [List.filter_cons, entryMatches, hb1]
      | false =>
        rw [if_neg (by simp)]
        cases hb2 : (e.path == "") with
        | true =>
          rw [if_pos rfl, ih acc hacc]
          simp [List.filter_cons, entryMatches, hb2]
        | false =>
          rw [if_neg (by simp)]
          cases hb3 : goHasSuffix e.path p with
          | true =>
            rw [if_pos rfl,
              ih (acc ++ [if e.typ == "tree" then e.path ++ "/" else e.path])
                (by simp; omega)]
            have hmatch : entryMatches d p e = true := by
              simp [entryMatches, hb1, hb2, hb3]
            have htake : m - acc.length = (m - (acc.length + 1)) + 1 := by omega
            simp only [List.filter_cons, hmatch, if_pos, List.map_cons, htake,
              List.take_succ_cons, List.append_assoc, List.singleton_append,
              List.length_append, List.length_cons, List.length_nil]
            rfl
          | false =>
            rw [if_neg (by simp), ih acc hacc]
            simp [List.filter_cons, entryMatches, hb1, hb2, hb3]

/-- C9: `filterPaths` with `maxResults = -1` returns exactly the result
paths of the matching entries in input order (matching means: path
non-empty and ending in the suffix — the query with one trailing slash
removed when present — and, for a query ending in `/`, directory entries
only; directories gain a trailing slash); with a non-negative
`maxResults` it returns the first `maxResults` of that list, so never
more than `maxResults` paths. -/
theorem filterPaths_spec_correct (entries : List TreeEntry) (q : String) (m : Nat) :
    filterPaths entries q (-1) = filterPathsSpec entries q ∧
    filterPaths entries q (m : Int) = (filterPathsSpec entries q).take m ∧
    (filterPaths entries q (m : Int)).length ≤ m := by
  have hneg : filterPaths entries q (-1) = filterPathsSpec entries q := by
    unfold filterPaths filterPathsSpec
    by_cases hs : goHasSuffix q "/" = true
    · rw [if_pos hs, filterPathsLoop_neg_limit true (goTrimSuffix q "/") (-1) (by omega)]
      simp [hs]
    · rw [if_neg hs, filterPathsLoop_neg_limit false q (-1) (by omega)]
      simp [hs]
  have hnat : filterPaths entries q (m : Int) = (filterPathsSpec entries q).take m := by
    unfold filterPaths filterPathsSpec
    by_cases hs : goHasSuffix q "/" = true
    · rw [if_pos hs,
        filterPathsLoop_nat_limit true (goTrimSuffix q "/") m entries [] (by simp)]
      simp [hs]
    · rw [if_neg hs, filterPathsLoop_nat_limit false q m entries [] (by simp)]
      simp [hs]
  refine ⟨hneg, hnat, ?_⟩
  rw [hnat]
  exact List.length_take_le m (filterPathsSpec entries q)

theorem filterPaths_spec_witness :
    filterPaths
        [⟨"src/main.go", "blob"⟩, ⟨"docs/main.go", "blob"⟩, ⟨"vendor/main.go", "blob"⟩]
        "main.go" 2 =
      ["src/main.go", "docs/main.go"] := by
  have h := (filterPaths_spec_correct
    [⟨"src/main.go", "blob"⟩, ⟨"docs/main.go", "blob"⟩, ⟨"vendor/main.go", "blob"⟩]
    "main.go" 2).2.1
  norm_num at h
  rw [h]
  decide

end GhMcp
